import Mathlib

/-!
Shallow embedding of `src/pack_helm_images.py`, a four-stage pipeline
(render a Helm chart with helm, extract image references with yq,
docker-pull each image, docker-save them into a tar archive), together
with theorems settling the specification claims about it.

The pure text post-processing of `extract_images_with_yq` (lines 43-49 of
the source) is embedded directly as Lean functions on `String` and
`List Char`.  The orchestration (`main`, lines 111-145) is embedded as a
function from a `World` — the recorded behaviour of the external tools
helm, yq and docker during one run — to an `Outcome`: the process exit
code plus the observable run state (files written, pull commands issued
in order, whether docker save was invoked).

Python-semantics footnotes baked into the embedding:
* `subprocess.run(cmd, check=True)` raises `CalledProcessError` on a
  non-zero exit; an exception that escapes `main` makes CPython terminate
  with process exit status `1` (not the tool's own status).
* `sys.exit(n)` terminates with status `n`.
* `str.splitlines()` is modelled for LF line boundaries, the form the
  captured yq stdout takes.
* Python string comparison is lexicographic by code point, modelled by
  the boolean comparator `strLe` below.
-/

namespace PackHelmImages

/-- Lexicographic code-point comparison of character lists, as Python
compares strings: `charsLe as bs` is true iff `as` is lexicographically
at most `bs`. -/
def charsLe : List Char → List Char → Bool
  | [], _ => true
  | _ :: _, [] => false
  | a :: as, b :: bs => if a < b then true else if b < a then false else charsLe as bs

/-- Python string comparison `a <= b`. -/
def strLe (a b : String) : Bool :=
  charsLe a.data b.data

/-- The comparison `strLe` as a relation, used as the sort order. -/
def strLeRel (a b : String) : Prop :=
  strLe a b = true

instance : DecidableRel strLeRel :=
  fun a b => Bool.decEq (strLe a b) true

/-- Splitting of a character list at every LF, in the style of a
separator split: the result is always non-empty, and an input with `n`
newline characters yields `n + 1` (possibly empty) pieces. -/
def splitNl : List Char → List (List Char)
  | [] => [[]]
  | c :: cs =>
    if c = '\n' then [] :: splitNl cs
    else
      match splitNl cs with
      | [] => [[c]]
      | l :: ls => (c :: l) :: ls

/-- Python `str.splitlines()` restricted to LF line boundaries: split at
every newline and drop a final empty piece, so that a trailing newline
does not produce a trailing empty line and the empty string yields no
lines at all. -/
def pySplitlines (s : String) : List String :=
  let parts := (splitNl s.data).map List.asString
  if parts.getLast? = some "" then parts.dropLast else parts

/-- Python `str.strip()` with no argument, at the character level: remove
leading and trailing whitespace. -/
def pyStrip (l : List Char) : List Char :=
  ((l.dropWhile Char.isWhitespace).reverse.dropWhile Char.isWhitespace).reverse

/-- Python `line.strip()` on a string. -/
def pyStripStr (s : String) : String :=
  (pyStrip s.data).asString

/-- Line 43 of the source:
`lines = [line.strip() for line in output.splitlines() if line.strip()]`.
The comprehension keeps `line.strip()` exactly when `line.strip()` is
truthy, i.e. non-empty, so it is the strip map followed by the non-empty
filter. -/
def stripFilterLines (output : String) : List String :=
  ((pySplitlines output).map pyStripStr).filter (fun line => line ≠ "")

/-- Line 44 of the source: `unique_sorted = sorted(set(lines))` — the
ascending enumeration of the distinct lines under Python's lexicographic
string order.  `dedup` realises the set; sorting realises `sorted`. -/
def uniqueSorted (lines : List String) : List String :=
  List.insertionSort strLeRel lines.dedup

/-- The pure text post-processing of `extract_images_with_yq`
(lines 43-44) applied to the captured yq stdout. -/
def extract_images (output : String) : List String :=
  uniqueSorted (stripFilterLines output)

/-- Python `"\n".join(strs)`. -/
def joinNl : List String → String
  | [] => ""
  | [x] => x
  | x :: y :: xs => x ++ "\n" ++ joinNl (y :: xs)

/-- Lines 46-49 of the source: the text written to the images file is
`"\n".join(unique_sorted) + ("\n" if unique_sorted else "")`. -/
def imagesFileContent (images : List String) : String :=
  joinNl images ++ (if images = [] then "" else "\n")

/-- Recorded behaviour of the external tools during one run: exit
statuses and captured standard output of helm and yq, and exit statuses
of the docker pull (per image) and docker save invocations. -/
structure World where
  helmExit : Nat
  helmOut : String
  yqExit : Nat
  yqOut : String
  pullExit : String → Nat
  saveExit : Nat

/-- Observable state of one run: the content of the manifest file and of
the images file (`none` while not yet created), the docker pull commands
issued so far in order, and whether docker save was invoked. -/
structure RunState where
  manifestFile : Option String
  imagesFile : Option String
  pullsIssued : List String
  saveIssued : Bool
  deriving DecidableEq

/-- State at process start: no files written, no commands issued. -/
def initState : RunState :=
  { manifestFile := none, imagesFile := none, pullsIssued := [], saveIssued := false }

/-- Process exit code together with the final observable run state. -/
structure Outcome where
  exitCode : Nat
  state : RunState
  deriving DecidableEq

/-- CPython terminates with status 1 when an exception (here the
`CalledProcessError` raised by `run` via `check=True`) escapes `main`. -/
def uncaughtExit : Nat := 1

/-- The release name helm is invoked with, line 21 of the source: the
constant string "offline", independent of every input. -/
def release_name : String := "offline"

/-- Lines 23-25 of the source: the helm command line
`helm template <release_name> <chart_path> [-f <values_file>]`. -/
def helmCmd (chart_path : String) (values_file : Option String) : List String :=
  ["helm", "template", release_name, chart_path] ++
    (match values_file with
     | some v => ["-f", v]
     | none => [])

/-- Line 22 of the source: `manifest.open("w", encoding="utf-8")` —
opening the manifest file for writing creates it, or truncates it to
empty if it exists.  In `render_chart` this happens before the helm
command is run. -/
def openManifestForWrite (st : RunState) : RunState :=
  { st with manifestFile := some "" }

/-- Lines 19-26 of the source, `render_chart`: open the manifest file for
writing, then run helm with stdout redirected into it.  The file content
becomes whatever helm wrote to stdout (`w.helmOut`); a non-zero helm exit
raises `CalledProcessError`, which no caller catches, so the process dies
with `uncaughtExit` — with the manifest file already on disk. -/
def render_chart (w : World) (st : RunState) : Except Outcome RunState :=
  let opened := openManifestForWrite st
  let rendered := { opened with manifestFile := some w.helmOut }
  if w.helmExit = 0 then Except.ok rendered
  else Except.error { exitCode := uncaughtExit, state := rendered }

/-- Lines 29-51 of the source, `extract_images_with_yq`: run yq capturing
its stdout.  A non-zero yq exit raises `CalledProcessError`, caught on
line 39, and line 41 calls `sys.exit(e.returncode)` — the yq exit status
becomes the process exit code, and the images file is never written.  On
success the post-processed image list is persisted and returned. -/
def extract_images_with_yq (w : World) (st : RunState) :
    Except Outcome (RunState × List String) :=
  if w.yqExit = 0 then
    let images := extract_images w.yqOut
    Except.ok ({ st with imagesFile := some (imagesFileContent images) }, images)
  else
    Except.error { exitCode := w.yqExit, state := st }

/-- Lines 54-58 of the source, `pull_images`: `docker pull` each image in
sequence order.  A non-zero exit raises `CalledProcessError`, which no
caller catches: the failing pull is the last command issued and the
process dies with `uncaughtExit`. -/
def pull_images (w : World) (images : List String) (st : RunState) :
    Except Outcome RunState :=
  match images with
  | [] => Except.ok st
  | img :: rest =>
    let issued := { st with pullsIssued := st.pullsIssued ++ [img] }
    if w.pullExit img = 0 then pull_images w rest issued
    else Except.error { exitCode := uncaughtExit, state := issued }

/-- Lines 61-67 of the source, `save_images`: with an empty image list,
print a notice and return without invoking docker (lines 63-65);
otherwise run one `docker save` with every image as argument.  A non-zero
exit raises `CalledProcessError`, uncaught. -/
def save_images (w : World) (images : List String) (st : RunState) :
    Except Outcome RunState :=
  if images = [] then Except.ok st
  else
    let issued := { st with saveIssued := true }
    if w.saveExit = 0 then Except.ok issued
    else Except.error { exitCode := uncaughtExit, state := issued }

/-- The outcome of running the pull stage and then the save stage (lines
140-145 of `main`): a pull failure carries its outcome out, otherwise a
save failure carries its outcome out, otherwise exit code 0. -/
def pullSaveOutcome (w : World) (images : List String) (st : RunState) : Outcome :=
  match pull_images w images st with
  | Except.error o => o
  | Except.ok st₃ =>
    match save_images w images st₃ with
    | Except.error o => o
    | Except.ok st₄ => { exitCode := 0, state := st₄ }

/-- The run state after a successful render: the manifest file holds the
helm output, nothing else has happened yet. -/
def renderedState (w : World) : RunState :=
  { manifestFile := some w.helmOut, imagesFile := none,
    pullsIssued := [], saveIssued := false }

/-- The run state after a successful render and extract: both files are
on disk, no docker command has been issued yet. -/
def extractedState (w : World) : RunState :=
  { manifestFile := some w.helmOut,
    imagesFile := some (imagesFileContent (extract_images w.yqOut)),
    pullsIssued := [], saveIssued := false }

/-- Lines 111-145 of the source, `main`: render, extract, abort with
`sys.exit(1)` if no images were found (lines 131-133), then pull and
save.  Any stage failure carries its `Outcome` out. -/
def mainRun (w : World) : Outcome :=
  match render_chart w initState with
  | Except.error o => o
  | Except.ok st₁ =>
    match extract_images_with_yq w st₁ with
    | Except.error o => o
    | Except.ok (st₂, images) =>
      if images = [] then { exitCode := 1, state := st₂ }
      else pullSaveOutcome w images st₂

example : extract_images "b:1\na:1\na:1" = ["a:1", "b:1"] := by decide
example : extract_images "" = [] := by decide
example : extract_images "  x \n\n x\nX" = ["X", "x"] := by decide
example : imagesFileContent ["a:1", "b:1"] = "a:1\nb:1\n" := by decide
example : imagesFileContent [] = "" := by decide
example : pySplitlines "a\nb\n" = ["a", "b"] := by decide
example : pySplitlines "" = [] := by decide

/-- The boolean comparator agrees with the lexicographic order `List.lt`
that underlies the string order: `charsLe` holds exactly when the reverse
strict comparison fails. -/
theorem charsLe_iff_not_lt : ∀ as bs : List Char, charsLe as bs = true ↔ ¬ List.lt bs as
  | [], bs => by
    simp only [charsLe]
    exact iff_of_true trivial (fun h => nomatch h)
  | a :: as, [] => by
    simp only [charsLe]
    exact iff_of_false (by simp) (fun h => h (List.lt.nil a as))
  | a :: as, b :: bs => by
    simp only [charsLe]
    by_cases hab : a < b
    · rw [if_pos hab]
      refine iff_of_true rfl (fun h => ?_)
      cases h with
      | head _ _ hba => exact lt_asymm hab hba
      | tail h₁ h₂ _ => exact h₂ hab
    · rw [if_neg hab]
      by_cases hba : b < a
      · rw [if_pos hba]
        exact iff_of_false (by simp) (fun h => h (List.lt.head _ _ hba))
      · rw [if_neg hba]
        rw [charsLe_iff_not_lt as bs]
        constructor
        · intro h hlt
          cases hlt with
          | head _ _ hba2 => exact hba hba2
          | tail _ _ h₃ => exact h h₃
        · exact fun h hlt => h (List.lt.tail hba hab hlt)

/-- The comparator `strLe` agrees with the order on strings. -/
theorem strLe_iff_le (a b : String) : strLe a b = true ↔ a ≤ b := by
  rw [String.le_iff_toList_le, ← not_lt]
  have h : b.toList < a.toList ↔ List.lt b.toList a.toList := by
    rw [List.lt_iff_lex_lt]
    exact Iff.rfl
  rw [h]
  exact charsLe_iff_not_lt a.data b.data

/-- The sort relation agrees with the order on strings. -/
theorem strLeRel_iff_le (a b : String) : strLeRel a b ↔ a ≤ b :=
  strLe_iff_le a b

theorem strLeRel_total (a b : String) : strLeRel a b ∨ strLeRel b a := by
  rw [strLeRel_iff_le, strLeRel_iff_le]
  exact le_total a b

theorem strLeRel_trans {a b c : String} (hab : strLeRel a b) (hbc : strLeRel b c) :
    strLeRel a c := by
  rw [strLeRel_iff_le] at *
  exact le_trans hab hbc

theorem strLeRel_antisymm {a b : String} (hab : strLeRel a b) (hba : strLeRel b a) :
    a = b := by
  rw [strLeRel_iff_le] at *
  exact le_antisymm hab hba

/-- The extracted list is sorted for the sort relation. -/
theorem extract_images_sortedRel (output : String) :
    (extract_images output).Sorted strLeRel := by
  haveI : IsTotal String strLeRel := ⟨strLeRel_total⟩
  haveI : IsTrans String strLeRel := ⟨fun _ _ _ => strLeRel_trans⟩
  exact List.sorted_insertionSort strLeRel _

/-- The extracted list is a permutation of the deduplicated stripped lines. -/
theorem extract_images_perm (output : String) :
    (extract_images output).Perm (stripFilterLines output).dedup :=
  List.perm_insertionSort strLeRel _

/-- The extracted list has no duplicates. -/
theorem extract_images_nodup (output : String) :
    (extract_images output).Nodup :=
  (extract_images_perm output).symm.nodup (List.nodup_dedup _)

/-- Membership in the extracted list is exactly membership among the
stripped non-blank lines of the yq output. -/
theorem extract_images_mem (output : String) (a : String) :
    a ∈ extract_images output ↔ a ∈ stripFilterLines output :=
  ((extract_images_perm output).mem_iff).trans (List.mem_dedup)

/-- The extracted list is weakly sorted for the string order. -/
theorem extract_images_sorted_le (output : String) :
    (extract_images output).Sorted (· ≤ ·) :=
  (extract_images_sortedRel output).imp (fun h => (strLeRel_iff_le _ _).mp h)

/-- The extracted list is strictly sorted for the string order. -/
theorem extract_images_sorted_lt (output : String) :
    (extract_images output).Sorted (· < ·) :=
  (extract_images_sorted_le output).lt_of_le (extract_images_nodup output)

/-- C1: for every yq output text, the extraction step strips whitespace
from each line, discards blank lines, deduplicates the remaining lines by
exact case-sensitive string equality, and returns the distinct strings
each exactly once, in strictly ascending lexicographic order: the result
is sorted under the strict string order, and every string occurs in it
exactly once if it is among the stripped non-blank lines and zero times
otherwise. -/
theorem extract_images_strip_dedup_sort (output : String) :
    (extract_images output).Sorted (· < ·) ∧
    (∀ a : String, a ∈ extract_images output ↔ a ∈ stripFilterLines output) ∧
    (∀ a : String,
      (extract_images output).count a =
        if a ∈ stripFilterLines output then 1 else 0) := by
  refine ⟨extract_images_sorted_lt output, extract_images_mem output, fun a => ?_⟩
  by_cases h : a ∈ stripFilterLines output
  · rw [if_pos h]
    exact List.count_eq_one_of_mem (extract_images_nodup output)
      ((extract_images_mem output a).mpr h)
  · rw [if_neg h]
    exact List.count_eq_zero.mpr (fun hmem => h ((extract_images_mem output a).mp hmem))

/-- C2: the persisted image-list file content is the extracted sequence
joined by newlines with a trailing newline when the sequence is
non-empty, and the empty string when it is empty; on the three-line yq
output with images b:1, a:1, a:1 the extraction yields the two distinct
images in ascending order and the file content is exactly that list,
newline-joined, with a trailing newline. -/
theorem imagesFileContent_form :
    imagesFileContent [] = "" ∧
    (∀ images : List String, images ≠ [] →
      imagesFileContent images = joinNl images ++ "\n") ∧
    extract_images "b:1\na:1\na:1" = ["a:1", "b:1"] ∧
    imagesFileContent (extract_images "b:1\na:1\na:1") = "a:1\nb:1\n" := by
  refine ⟨rfl, fun images h => ?_, by decide, by decide⟩
  rw [imagesFileContent, if_neg h]

/-- Witness for the non-empty case of `imagesFileContent_form` at the
one-element list. -/
theorem imagesFileContent_form_witness :
    (["a:1"] : List String) ≠ [] ∧ imagesFileContent ["a:1"] = joinNl ["a:1"] ++ "\n" :=
  ⟨by decide, imagesFileContent_form.2.1 ["a:1"] (by decide)⟩

/-- When every pull succeeds, `pull_images` issues the pulls in sequence
order, appending them to the record, and returns successfully. -/
theorem pull_images_ok (w : World) :
    ∀ (images : List String) (st : RunState),
      (∀ img ∈ images, w.pullExit img = 0) →
      pull_images w images st =
        Except.ok { st with pullsIssued := st.pullsIssued ++ images } := by
  intro images
  induction images with
  | nil => intro st _; simp [pull_images]
  | cons a rest ih =>
    intro st h
    have ha : w.pullExit a = 0 := h a (List.mem_cons_self a rest)
    rw [pull_images]
    simp only [ha, if_pos]
    rw [ih _ (fun img hm => h img (List.mem_cons_of_mem a hm))]
    simp [List.append_assoc]

/-- When some pull fails, `pull_images` fails with the uncaught-exception
exit code, leaving the file-related state untouched. -/
theorem pull_images_fails (w : World) :
    ∀ (images : List String) (st : RunState),
      (∃ img ∈ images, w.pullExit img ≠ 0) →
      ∃ st2, pull_images w images st =
          Except.error { exitCode := uncaughtExit, state := st2 } ∧
        st2.manifestFile = st.manifestFile ∧ st2.imagesFile = st.imagesFile ∧
        st2.saveIssued = st.saveIssued := by
  intro images
  induction images with
  | nil =>
    rintro st ⟨img, hmem, _⟩
    exact absurd hmem (List.not_mem_nil img)
  | cons a rest ih =>
    rintro st ⟨img, hmem, hne⟩
    by_cases ha : w.pullExit a = 0
    · have hrest : ∃ i ∈ rest, w.pullExit i ≠ 0 := by
        rcases List.mem_cons.mp hmem with rfl | hm
        · exact absurd ha hne
        · exact ⟨img, hm, hne⟩
      rw [pull_images]
      simp only [ha, if_pos]
      obtain ⟨st2, heq, h1, h2, h3⟩ := ih _ hrest
      exact ⟨st2, heq, h1, h2, h3⟩
    · rw [pull_images]
      simp only [if_neg ha]
      exact ⟨_, rfl, rfl, rfl, rfl⟩

/-- Whatever `pull_images` returns, the manifest-file and images-file
components of the state are unchanged: pulling only issues pull commands. -/
theorem pull_images_preserves_files (w : World) :
    ∀ (images : List String) (st : RunState),
      (∀ st2, pull_images w images st = Except.ok st2 →
        st2.manifestFile = st.manifestFile ∧ st2.imagesFile = st.imagesFile) ∧
      (∀ o, pull_images w images st = Except.error o →
        o.state.manifestFile = st.manifestFile ∧
          o.state.imagesFile = st.imagesFile) := by
  intro images
  induction images with
  | nil =>
    intro st
    refine ⟨fun st2 h => ?_, fun o h => ?_⟩
    · rw [pull_images] at h
      cases h
      exact ⟨rfl, rfl⟩
    · rw [pull_images] at h
      simp at h
  | cons a rest ih =>
    intro st
    by_cases ha : w.pullExit a = 0
    · refine ⟨fun st2 h => ?_, fun o h => ?_⟩
      · rw [pull_images] at h
        simp only [ha, if_pos] at h
        obtain ⟨e1, e2⟩ := (ih _).1 st2 h
        exact ⟨e1, e2⟩
      · rw [pull_images] at h
        simp only [ha, if_pos] at h
        obtain ⟨e1, e2⟩ := (ih _).2 o h
        exact ⟨e1, e2⟩
    · refine ⟨fun st2 h => ?_, fun o h => ?_⟩
      · rw [pull_images] at h
        simp only [if_neg ha] at h
        simp at h
      · rw [pull_images] at h
        simp only [if_neg ha] at h
        cases h
        exact ⟨rfl, rfl⟩

/-- Whatever `save_images` returns, the manifest-file and images-file
components of the state are unchanged. -/
theorem save_images_preserves_files (w : World) (images : List String) (st : RunState) :
    (∀ st2, save_images w images st = Except.ok st2 →
      st2.manifestFile = st.manifestFile ∧ st2.imagesFile = st.imagesFile) ∧
    (∀ o, save_images w images st = Except.error o →
      o.state.manifestFile = st.manifestFile ∧ o.state.imagesFile = st.imagesFile) := by
  rw [save_images]
  by_cases hemp : images = []
  · simp only [if_pos hemp]
    refine ⟨fun st2 h => ?_, fun o h => ?_⟩
    · cases h
      exact ⟨rfl, rfl⟩
    · simp at h
  · simp only [if_neg hemp]
    by_cases hs : w.saveExit = 0
    · simp only [hs, if_pos]
      refine ⟨fun st2 h => ?_, fun o h => ?_⟩
      · cases h
        exact ⟨rfl, rfl⟩
      · simp at h
    · simp only [if_neg hs]
      refine ⟨fun st2 h => ?_, fun o h => ?_⟩
      · simp at h
      · cases h
        exact ⟨rfl, rfl⟩

/-- The pull and save stages never touch the manifest file or the images
file, whatever their outcome. -/
theorem pullSaveOutcome_files (w : World) (images : List String) (st : RunState) :
    (pullSaveOutcome w images st).state.manifestFile = st.manifestFile ∧
    (pullSaveOutcome w images st).state.imagesFile = st.imagesFile := by
  rw [pullSaveOutcome]
  rcases hp : pull_images w images st with o | st₃
  · exact (pull_images_preserves_files w images st).2 o hp
  · have h2 := (pull_images_preserves_files w images st).1 st₃ hp
    dsimp only
    rcases hs : save_images w images st₃ with o | st₄
    · have h1 := (save_images_preserves_files w images st₃).2 o hs
      exact ⟨h1.1.trans h2.1, h1.2.trans h2.2⟩
    · have h1 := (save_images_preserves_files w images st₃).1 st₄ hs
      exact ⟨h1.1.trans h2.1, h1.2.trans h2.2⟩

/-- Closed-form characterisation of a whole run, by case on which stage
fails first. -/
theorem mainRun_eq (w : World) :
    mainRun w =
      (if w.helmExit = 0 then
        (if w.yqExit = 0 then
          (if extract_images w.yqOut = [] then
            { exitCode := 1, state := extractedState w }
           else pullSaveOutcome w (extract_images w.yqOut) (extractedState w))
         else { exitCode := w.yqExit, state := renderedState w })
       else { exitCode := uncaughtExit, state := renderedState w }) := by
  by_cases hh : w.helmExit = 0 <;> by_cases hy : w.yqExit = 0 <;>
    simp [mainRun, render_chart, extract_images_with_yq, hh, hy,
      extractedState, renderedState, initState, openManifestForWrite]

/-- The manifest file at the end of every run holds exactly what helm
wrote to stdout, whether the run failed or not. -/
theorem mainRun_manifestFile (w : World) :
    (mainRun w).state.manifestFile = some w.helmOut := by
  rw [mainRun_eq]
  by_cases hh : w.helmExit = 0
  · by_cases hy : w.yqExit = 0
    · by_cases hemp : extract_images w.yqOut = []
      · simp [hh, hy, hemp, extractedState]
      · simp only [hh, hy, if_pos, if_neg hemp]
        rw [(pullSaveOutcome_files w _ _).1]
        simp [extractedState]
    · simp [hh, hy, renderedState]
  · simp [hh, renderedState]

/-- The images file at the end of every run: written with the persisted
image-list text exactly when helm and yq both succeeded, never otherwise. -/
theorem mainRun_imagesFile (w : World) :
    (mainRun w).state.imagesFile =
      (if w.helmExit = 0 ∧ w.yqExit = 0
       then some (imagesFileContent (extract_images w.yqOut)) else none) := by
  rw [mainRun_eq]
  by_cases hh : w.helmExit = 0
  · by_cases hy : w.yqExit = 0
    · by_cases hemp : extract_images w.yqOut = []
      · simp [hh, hy, hemp, extractedState]
      · simp only [hh, hy, if_pos, if_neg hemp]
        rw [(pullSaveOutcome_files w _ _).2]
        simp [hh, hy, extractedState]
    · simp [hh, hy, renderedState]
  · simp [hh, renderedState]

/-- A run in which helm exits with status 5; yq and docker would succeed. -/
def helmFailWorld : World :=
  { helmExit := 5, helmOut := "", yqExit := 0, yqOut := "a:1",
    pullExit := fun _ => 0, saveExit := 0 }

/-- C3 counterexample: when helm exits with status 5 the pipeline
terminates with exit code 1 — CPython's uncaught-exception status — so
the failing tool's exit code is not propagated as the process exit code. -/
theorem helm_exit_code_not_propagated :
    helmFailWorld.helmExit = 5 ∧ (mainRun helmFailWorld).exitCode = 1 ∧
      (mainRun helmFailWorld).exitCode ≠ helmFailWorld.helmExit := by
  refine ⟨rfl, by decide, by decide⟩

/-- C3 amended: a helm, docker-pull, or docker-save failure terminates
the pipeline with exit code 1 — CPython's uncaught-exception status for
the `CalledProcessError` that no caller catches — rather than the failing
tool's own exit code; only a yq failure propagates the tool's code. -/
theorem external_failure_exits_one (w : World)
    (h : w.helmExit ≠ 0 ∨
      (w.helmExit = 0 ∧ w.yqExit = 0 ∧
        ((∃ img ∈ extract_images w.yqOut, w.pullExit img ≠ 0) ∨
          ((∀ img ∈ extract_images w.yqOut, w.pullExit img = 0) ∧
            extract_images w.yqOut ≠ [] ∧ w.saveExit ≠ 0)))) :
    (mainRun w).exitCode = 1 := by
  rw [mainRun_eq]
  rcases h with hh | ⟨hh, hy, hpull | ⟨hpull, hemp, hsave⟩⟩
  · rw [if_neg hh]
    rfl
  · have hemp : extract_images w.yqOut ≠ [] := by
      rcases hpull with ⟨img, hmem, _⟩
      intro he
      rw [he] at hmem
      exact List.not_mem_nil img hmem
    rw [if_pos hh, if_pos hy, if_neg hemp, pullSaveOutcome]
    obtain ⟨st2, heq, _, _, _⟩ := pull_images_fails w _ (extractedState w) hpull
    rw [heq]
    rfl
  · have h1 := pull_images_ok w (extract_images w.yqOut) (extractedState w) hpull
    rw [if_pos hh, if_pos hy, if_neg hemp, pullSaveOutcome, h1]
    simp [save_images, hemp, hsave, uncaughtExit]

/-- Witness for `external_failure_exits_one` at the helm-failure world. -/
theorem external_failure_exits_one_witness :
    helmFailWorld.helmExit ≠ 0 ∧ (mainRun helmFailWorld).exitCode = 1 :=
  ⟨by decide, external_failure_exits_one helmFailWorld (Or.inl (by decide))⟩

/-- C4: when extraction yields zero images the pipeline exits with code 1
having issued no pull command and no save invocation. -/
theorem no_images_exits_one_before_pull_save (w : World)
    (hh : w.helmExit = 0) (hy : w.yqExit = 0)
    (he : extract_images w.yqOut = []) :
    (mainRun w).exitCode = 1 ∧ (mainRun w).state.pullsIssued = [] ∧
      (mainRun w).state.saveIssued = false := by
  rw [mainRun_eq, if_pos hh, if_pos hy, if_pos he]
  exact ⟨rfl, rfl, rfl⟩

/-- A run whose manifest renders fine but contains no image fields. -/
def emptyYqWorld : World :=
  { helmExit := 0, helmOut := "kind: ConfigMap", yqExit := 0, yqOut := "",
    pullExit := fun _ => 0, saveExit := 0 }

/-- Witness for `no_images_exits_one_before_pull_save` at a run with no
image fields. -/
theorem no_images_exits_one_before_pull_save_witness :
    (mainRun emptyYqWorld).exitCode = 1 ∧
      (mainRun emptyYqWorld).state.pullsIssued = [] ∧
      (mainRun emptyYqWorld).state.saveIssued = false :=
  no_images_exits_one_before_pull_save emptyYqWorld rfl rfl (by decide)

/-- C5: when yq exits non-zero (after a successful render), extraction
fails fatally and the yq exit status is surfaced as the process exit
code. -/
theorem yq_failure_propagates_exit (w : World)
    (hh : w.helmExit = 0) (hy : w.yqExit ≠ 0) :
    (mainRun w).exitCode = w.yqExit := by
  rw [mainRun_eq, if_pos hh, if_neg hy]

/-- A run in which yq exits with status 7. -/
def yqFailWorld : World :=
  { helmExit := 0, helmOut := "m", yqExit := 7, yqOut := "",
    pullExit := fun _ => 0, saveExit := 0 }

/-- Witness for `yq_failure_propagates_exit`: yq status 7 becomes the
process exit code. -/
theorem yq_failure_propagates_exit_witness :
    (mainRun yqFailWorld).exitCode = yqFailWorld.yqExit :=
  yq_failure_propagates_exit yqFailWorld rfl (by decide)

/-- C6: with at least three extracted images, if the first pull succeeds
and the second fails, the pulls issued are exactly the first two in
sequence order, the third image's pull is never attempted, and docker
save is never invoked. -/
theorem second_pull_failure_aborts (w : World) (a b c : String) (rest : List String)
    (hh : w.helmExit = 0) (hy : w.yqExit = 0)
    (he : extract_images w.yqOut = a :: b :: c :: rest)
    (ha : w.pullExit a = 0) (hb : w.pullExit b ≠ 0) :
    (mainRun w).state.pullsIssued = [a, b] ∧
      c ∉ (mainRun w).state.pullsIssued ∧
      (mainRun w).state.saveIssued = false := by
  have hemp : extract_images w.yqOut ≠ [] := by rw [he]; simp
  have hnodup := extract_images_nodup w.yqOut
  rw [he] at hnodup
  obtain ⟨ha1, hnodup2⟩ := List.nodup_cons.mp hnodup
  obtain ⟨hb1, _⟩ := List.nodup_cons.mp hnodup2
  have hca : c ≠ a := by
    rintro rfl
    exact ha1 (List.mem_cons_of_mem b (List.mem_cons_self c rest))
  have hcb : c ≠ b := by
    rintro rfl
    exact hb1 (List.mem_cons_self c rest)
  have hpull : pull_images w (a :: b :: c :: rest) (extractedState w) =
      Except.error
        { exitCode := uncaughtExit,
          state := { (extractedState w) with pullsIssued := [a, b] } } := by
    rw [pull_images]
    simp only [ha, if_pos]
    rw [pull_images]
    simp only [if_neg hb]
    simp [extractedState]
  rw [mainRun_eq, if_pos hh, if_pos hy, if_neg hemp, he, pullSaveOutcome, hpull]
  dsimp only
  refine ⟨rfl, ?_, rfl⟩
  simp [hca, hcb]

/-- A run with three extracted images a, b, c in which pulling b fails
with status 6. -/
def pullFailWorld : World :=
  { helmExit := 0, helmOut := "m", yqExit := 0, yqOut := "a\nb\nc",
    pullExit := fun img => if img = "b" then 6 else 0, saveExit := 0 }

/-- Witness for `second_pull_failure_aborts` at the three-image run. -/
theorem second_pull_failure_aborts_witness :
    (mainRun pullFailWorld).state.pullsIssued = ["a", "b"] ∧
      "c" ∉ (mainRun pullFailWorld).state.pullsIssued ∧
      (mainRun pullFailWorld).state.saveIssued = false :=
  second_pull_failure_aborts pullFailWorld "a" "b" "c" []
    rfl rfl (by decide) (by decide) (by decide)

/-- C7: the archive step called with an empty image sequence performs no
save invocation and returns successfully with the state untouched. -/
theorem save_images_empty_noop (w : World) (st : RunState) :
    save_images w [] st = Except.ok st := by
  rw [save_images]
  simp

/-- C8: two runs with identical helm and yq behaviour produce identical
manifest-file and image-list-file contents, whatever the docker stages
do; and the renderer's command line carries the fixed release name in the
release position for every chart and values input, so rendering is
deterministic given the templating engine's behaviour. -/
theorem identical_tool_outputs_identical_files :
    (∀ w₁ w₂ : World, w₁.helmExit = w₂.helmExit → w₁.helmOut = w₂.helmOut →
        w₁.yqExit = w₂.yqExit → w₁.yqOut = w₂.yqOut →
        (mainRun w₁).state.manifestFile = (mainRun w₂).state.manifestFile ∧
        (mainRun w₁).state.imagesFile = (mainRun w₂).state.imagesFile) ∧
    (∀ (chart : String) (values : Option String),
      (helmCmd chart values)[2]? = some release_name) := by
  refine ⟨fun w₁ w₂ h1 h2 h3 h4 => ⟨?_, ?_⟩, fun chart values => ?_⟩
  · rw [mainRun_manifestFile, mainRun_manifestFile, h2]
  · rw [mainRun_imagesFile, mainRun_imagesFile, h1, h3, h4]
  · cases values <;> rfl

/-- A run whose docker pulls all succeed. -/
def dockerOkWorld : World :=
  { helmExit := 0, helmOut := "m", yqOut := "img:1", yqExit := 0,
    pullExit := fun _ => 0, saveExit := 0 }

/-- The same helm and yq behaviour as `dockerOkWorld`, but docker pull
and save fail. -/
def dockerFailWorld : World :=
  { helmExit := 0, helmOut := "m", yqOut := "img:1", yqExit := 0,
    pullExit := fun _ => 3, saveExit := 9 }

/-- Witness for `identical_tool_outputs_identical_files`: two runs that
differ only in docker behaviour write the same files. -/
theorem identical_tool_outputs_identical_files_witness :
    (mainRun dockerOkWorld).state.manifestFile =
        (mainRun dockerFailWorld).state.manifestFile ∧
      (mainRun dockerOkWorld).state.imagesFile =
        (mainRun dockerFailWorld).state.imagesFile :=
  identical_tool_outputs_identical_files.1 dockerOkWorld dockerFailWorld rfl rfl rfl rfl

/-- C10: the renderer opens (creates or truncates) the manifest file
before invoking helm, so when helm exits non-zero the run fails, yet the
manifest file is present on disk holding whatever helm wrote to stdout —
the render failure is not atomic with respect to the filesystem. -/
theorem render_failure_leaves_manifest (w : World) (h : w.helmExit ≠ 0) :
    (∀ st, render_chart w st =
      Except.error
        { exitCode := uncaughtExit,
          state := { (openManifestForWrite st) with manifestFile := some w.helmOut } }) ∧
    (mainRun w).exitCode ≠ 0 ∧
    (mainRun w).state.manifestFile = some w.helmOut := by
  refine ⟨fun st => ?_, ?_, mainRun_manifestFile w⟩
  · rw [render_chart, if_neg h]
  · rw [mainRun_eq, if_neg h]
    show uncaughtExit ≠ 0
    decide

/-- A run in which helm dies with status 3 after writing partial output. -/
def renderFailWorld : World :=
  { helmExit := 3, helmOut := "apiVersion: v1", yqExit := 0, yqOut := "",
    pullExit := fun _ => 0, saveExit := 0 }

/-- Witness for `render_failure_leaves_manifest` at a failing render. -/
theorem render_failure_leaves_manifest_witness :
    (mainRun renderFailWorld).exitCode ≠ 0 ∧
      (mainRun renderFailWorld).state.manifestFile = some renderFailWorld.helmOut :=
  ⟨(render_failure_leaves_manifest renderFailWorld (by decide)).2.1,
   (render_failure_leaves_manifest renderFailWorld (by decide)).2.2⟩

/-- The head of a `dropWhile` result does not satisfy the predicate. -/
theorem dropWhile_head_not (p : Char → Bool) :
    ∀ (l : List Char) (c : Char), (l.dropWhile p).head? = some c → p c = false
  | [], c => by
    intro h
    simp [List.dropWhile] at h
  | a :: t, c => by
    intro h
    rw [List.dropWhile_cons] at h
    by_cases hp : p a
    · rw [if_pos hp] at h
      exact dropWhile_head_not p t c h
    · rw [if_neg hp] at h
      obtain rfl : a = c := by simpa using h
      simpa using hp

/-- `dropWhile` leaves a list whose head fails the predicate unchanged. -/
theorem dropWhile_eq_self_of_head (p : Char → Bool) (l : List Char)
    (h : ∀ c, l.head? = some c → p c = false) : l.dropWhile p = l := by
  cases l with
  | nil => rfl
  | cons a t =>
    rw [List.dropWhile_cons]
    simp [h a rfl]

/-- A non-empty `dropWhile` result keeps the last element of the list. -/
theorem getLast_dropWhile (p : Char → Bool) :
    ∀ l : List Char, l.dropWhile p ≠ [] → (l.dropWhile p).getLast? = l.getLast?
  | [] => fun h => absurd rfl h
  | a :: t => by
    intro h
    rw [List.dropWhile_cons] at h ⊢
    by_cases hp : p a
    · rw [if_pos hp] at h ⊢
      rw [getLast_dropWhile p t h]
      cases t with
      | nil => simp [List.dropWhile] at h
      | cons b t2 => rw [List.getLast?_cons_cons]
    · rw [if_neg hp]

/-- A list with non-whitespace head and last is a `pyStrip` fixpoint. -/
theorem pyStrip_eq_self (l : List Char)
    (h1 : ∀ c, l.head? = some c → c.isWhitespace = false)
    (h2 : ∀ c, l.getLast? = some c → c.isWhitespace = false) :
    pyStrip l = l := by
  rw [pyStrip]
  rw [dropWhile_eq_self_of_head _ l h1]
  rw [dropWhile_eq_self_of_head _ l.reverse (fun c hc => ?_)]
  · exact List.reverse_reverse l
  · rw [List.head?_reverse] at hc
    exact h2 c hc

/-- The head of a stripped list is not whitespace. -/
theorem pyStrip_head_clean (l : List Char) (c : Char)
    (h : (pyStrip l).head? = some c) : c.isWhitespace = false := by
  rw [pyStrip, List.head?_reverse] at h
  have hne :
      ((l.dropWhile Char.isWhitespace).reverse.dropWhile Char.isWhitespace) ≠ [] := by
    intro he
    rw [he] at h
    simp at h
  rw [getLast_dropWhile _ _ hne, List.getLast?_reverse] at h
  exact dropWhile_head_not _ l c h

/-- The last element of a stripped list is not whitespace. -/
theorem pyStrip_last_clean (l : List Char) (c : Char)
    (h : (pyStrip l).getLast? = some c) : c.isWhitespace = false := by
  rw [pyStrip, List.getLast?_reverse] at h
  exact dropWhile_head_not _ _ c h

/-- Stripping is idempotent. -/
theorem pyStrip_idem (l : List Char) : pyStrip (pyStrip l) = pyStrip l :=
  pyStrip_eq_self _ (pyStrip_head_clean l) (pyStrip_last_clean l)

/-- Stripping only removes characters. -/
theorem mem_of_mem_pyStrip {a : Char} {l : List Char} (h : a ∈ pyStrip l) : a ∈ l := by
  rw [pyStrip, List.mem_reverse] at h
  have h1 : a ∈ (l.dropWhile Char.isWhitespace).reverse :=
    (List.dropWhile_sublist _).subset h
  rw [List.mem_reverse] at h1
  exact (List.dropWhile_sublist _).subset h1

/-- `splitNl` never returns the empty list of pieces. -/
theorem splitNl_ne_nil : ∀ l : List Char, splitNl l ≠ []
  | [] => by simp [splitNl]
  | c :: cs => by
    rw [splitNl]
    by_cases hc : c = '\n'
    · simp [hc]
    · rw [if_neg hc]
      rcases hs : splitNl cs with _ | ⟨p, ps⟩
      · simp
      · simp

/-- No piece produced by `splitNl` contains a newline. -/
theorem not_nl_mem_of_mem_splitNl (l : List Char) :
    ∀ p ∈ splitNl l, '\n' ∉ p := by
  induction l with
  | nil =>
    intro p hp
    simp [splitNl] at hp
    simp [hp]
  | cons c cs ih =>
    intro p hp
    rw [splitNl] at hp
    by_cases hc : c = '\n'
    · rw [if_pos hc] at hp
      rcases List.mem_cons.mp hp with rfl | hmem
      · simp
      · exact ih p hmem
    · rw [if_neg hc] at hp
      rcases hs : splitNl cs with _ | ⟨q, qs⟩
      · exact absurd hs (splitNl_ne_nil cs)
      · simp only [hs] at hp
        have hq : '\n' ∉ q := by
          apply ih
          rw [hs]
          exact List.mem_cons_self q qs
        rcases List.mem_cons.mp hp with rfl | hmem
        · intro hin
          rcases List.mem_cons.mp hin with h1 | h2
          · exact hc h1.symm
          · exact hq h2
        · apply ih
          rw [hs]
          exact List.mem_cons_of_mem q hmem

/-- A newline-free list is split into the single piece that it is. -/
theorem splitNl_eq_single (l : List Char) (h : '\n' ∉ l) : splitNl l = [l] := by
  induction l with
  | nil => rfl
  | cons c cs ih =>
    rw [splitNl]
    have hc : c ≠ '\n' := by
      intro he
      exact h (by rw [← he]; exact List.mem_cons_self c cs)
    rw [if_neg hc, ih (fun hm => h (List.mem_cons_of_mem c hm))]

/-- Splitting a newline-free prefix followed by a newline peels off the
prefix as one piece. -/
theorem splitNl_append (a rest : List Char) (h : '\n' ∉ a) :
    splitNl (a ++ '\n' :: rest) = a :: splitNl rest := by
  induction a with
  | nil =>
    simp only [List.nil_append]
    rw [splitNl, if_pos rfl]
  | cons c cs ih =>
    have hc : c ≠ '\n' := by
      intro he
      exact h (by rw [← he]; exact List.mem_cons_self c cs)
    have hcs : '\n' ∉ cs := fun hm => h (List.mem_cons_of_mem c hm)
    rw [List.cons_append, splitNl, if_neg hc, ih hcs]

/-- Character-level form of a two-or-more-element newline join. -/
theorem joinNl_data_cons (x y : String) (xs : List String) :
    (joinNl (x :: y :: xs)).data = x.data ++ '\n' :: (joinNl (y :: xs)).data := by
  rw [joinNl]
  simp [List.append_assoc]

/-- Splitting a newline-join of newline-free strings recovers them. -/
theorem splitNl_joinNl : ∀ l : List String, l ≠ [] →
    (∀ x ∈ l, '\n' ∉ x.data) → splitNl (joinNl l).data = l.map String.data
  | [], h, _ => absurd rfl h
  | [x], _, hnl => by
    simp only [List.map]
    exact splitNl_eq_single x.data (hnl x (List.mem_cons_self x []))
  | x :: y :: xs, _, hnl => by
    rw [joinNl_data_cons,
      splitNl_append _ _ (hnl x (List.mem_cons_self x _)),
      splitNl_joinNl (y :: xs) (by simp)
        (fun z hz => hnl z (List.mem_cons_of_mem x hz))]
    rfl

/-- `pySplitlines` recovers a newline-join of newline-free non-empty
strings. -/
theorem pySplitlines_joinNl (l : List String) (hne : l ≠ [])
    (hnl : ∀ x ∈ l, '\n' ∉ x.data) (hempty : ∀ x ∈ l, x ≠ "") :
    pySplitlines (joinNl l) = l := by
  rw [pySplitlines]
  rw [splitNl_joinNl l hne hnl]
  have hmap : (l.map String.data).map List.asString = l := by
    rw [List.map_map]
    have hcomp : (List.asString ∘ String.data) = id := funext fun s => rfl
    rw [hcomp, List.map_id]
  rw [hmap]
  have hlast : l.getLast? ≠ some "" := by
    rw [List.getLast?_eq_getLast l hne]
    intro hEq
    have h2 : l.getLast hne = "" := by
      injection hEq
    exact hempty _ (List.getLast_mem hne) h2
  rw [if_neg hlast]

/-- No line produced by `pySplitlines` contains a newline. -/
theorem pySplitlines_no_nl {s : String} {y : String} (h : y ∈ pySplitlines s) :
    '\n' ∉ y.data := by
  have aux : ∀ z : String, z ∈ (splitNl s.data).map List.asString → '\n' ∉ z.data := by
    intro z hz
    rw [List.mem_map] at hz
    obtain ⟨q, hq, rfl⟩ := hz
    exact not_nl_mem_of_mem_splitNl s.data q hq
  rw [pySplitlines] at h
  by_cases hl : ((splitNl s.data).map List.asString).getLast? = some ""
  · rw [if_pos hl] at h
    exact aux y ((List.dropLast_sublist _).subset h)
  · rw [if_neg hl] at h
    exact aux y h

/-- Every element of the stripped non-blank lines is non-empty, a strip
fixpoint, and newline-free. -/
theorem stripFilterLines_elem {s x : String} (h : x ∈ stripFilterLines s) :
    x ≠ "" ∧ pyStrip x.data = x.data ∧ '\n' ∉ x.data := by
  rw [stripFilterLines, List.mem_filter] at h
  obtain ⟨hmem, hne⟩ := h
  have hne2 : x ≠ "" := of_decide_eq_true hne
  rw [List.mem_map] at hmem
  obtain ⟨y, hy, rfl⟩ := hmem
  refine ⟨hne2, pyStrip_idem y.data, fun hin => ?_⟩
  exact pySplitlines_no_nl hy (mem_of_mem_pyStrip hin)

/-- Every extracted image string is non-empty, a strip fixpoint, and
newline-free. -/
theorem extract_images_elem {s x : String} (h : x ∈ extract_images s) :
    x ≠ "" ∧ pyStrip x.data = x.data ∧ '\n' ∉ x.data :=
  stripFilterLines_elem ((extract_images_mem s x).mp h)

/-- `uniqueSorted` fixes a list that is already duplicate-free and
sorted. -/
theorem uniqueSorted_fix (l : List String) (hnd : l.Nodup)
    (hs : l.Sorted strLeRel) : uniqueSorted l = l := by
  rw [uniqueSorted, List.dedup_eq_self.mpr hnd]
  exact List.Sorted.insertionSort_eq hs

/-- The strip-and-filter pass fixes a newline-join of strings that are
already non-empty strip fixpoints without newlines. -/
theorem stripFilterLines_joinNl (r : List String)
    (hels : ∀ x ∈ r, x ≠ "" ∧ pyStrip x.data = x.data ∧ '\n' ∉ x.data)
    (hne : r ≠ []) :
    stripFilterLines (joinNl r) = r := by
  rw [stripFilterLines]
  rw [pySplitlines_joinNl r hne (fun x hx => (hels x hx).2.2) (fun x hx => (hels x hx).1)]
  have hmapfix : ∀ t : List String, (∀ x ∈ t, pyStripStr x = x) → t.map pyStripStr = t := by
    intro t
    induction t with
    | nil => intro _; rfl
    | cons a t2 ih =>
      intro hall
      rw [List.map_cons, hall a (List.mem_cons_self a t2),
        ih (fun x hx => hall x (List.mem_cons_of_mem a hx))]
  have hfix : ∀ x ∈ r, pyStripStr x = x := by
    intro x hx
    rw [pyStripStr, (hels x hx).2.1]
    rfl
  rw [hmapfix r hfix]
  refine List.filter_eq_self.mpr (fun a ha => ?_)
  exact decide_eq_true (hels a ha).1

/-- Idempotence of extraction: re-extracting the newline-join of an
extraction result reproduces it. -/
theorem extract_images_idem (s : String) :
    extract_images (joinNl (extract_images s)) = extract_images s := by
  by_cases hne : extract_images s = []
  · rw [hne]
    decide
  · show uniqueSorted (stripFilterLines (joinNl (extract_images s))) = extract_images s
    rw [stripFilterLines_joinNl (extract_images s) (fun x hx => extract_images_elem hx) hne]
    exact uniqueSorted_fix _ (extract_images_nodup s) (extract_images_sortedRel s)

/-- Permutation invariance of extraction: inputs whose line lists are
permutations of one another extract to the same list. -/
theorem extract_images_of_perm {s₁ s₂ : String}
    (h : (pySplitlines s₁).Perm (pySplitlines s₂)) :
    extract_images s₁ = extract_images s₂ := by
  have hperm : (stripFilterLines s₁).Perm (stripFilterLines s₂) :=
    (h.map pyStripStr).filter _
  have hperm3 : (extract_images s₁).Perm (extract_images s₂) :=
    ((extract_images_perm s₁).trans hperm.dedup).trans (extract_images_perm s₂).symm
  haveI : IsAntisymm String strLeRel := ⟨fun _ _ => strLeRel_antisymm⟩
  exact List.eq_of_perm_of_sorted hperm3
    (extract_images_sortedRel s₁) (extract_images_sortedRel s₂)

/-- C9: the strip-filter-dedup-sort transformation of extraction is
idempotent — applying it to the newline-joined result of a first
application yields the same sequence — and its result is invariant under
any permutation of the input lines. -/
theorem extract_images_idempotent_perm_invariant :
    (∀ s : String, extract_images (joinNl (extract_images s)) = extract_images s) ∧
    (∀ s₁ s₂ : String, (pySplitlines s₁).Perm (pySplitlines s₂) →
      extract_images s₁ = extract_images s₂) :=
  ⟨extract_images_idem, fun _ _ h => extract_images_of_perm h⟩

/-- Witness for `extract_images_idempotent_perm_invariant` on two
concrete inputs whose lines are permutations of one another. -/
theorem extract_images_idempotent_perm_invariant_witness :
    (pySplitlines "b\na").Perm (pySplitlines "a\nb") ∧
      extract_images "b\na" = extract_images "a\nb" :=
  ⟨by decide,
   extract_images_idempotent_perm_invariant.2 "b\na" "a\nb" (by decide)⟩

end PackHelmImages
